import Mathlib

/-!
Shallow embedding of the uvrl discovery engine.

Python strings are modelled as Lean `String`s and all string operations used
by the code (strip, lower, split, startswith, int parsing, `pathlib` stem and
suffix) are re-implemented over `List Char` so that every definition is
kernel-computable.  Filesystem and platform-metadata state is passed
explicitly: directory trees as an inductive rose tree, file contents as
`Option (List String)` (`none` models an `OSError` on open/read), environment
variables as `String → Option String`.  Python exceptions that escape a
function are modelled with `Except PyErr`.
-/

-- ======================================================================
-- Python string primitives
-- ======================================================================

/-- Whitespace characters removed by Python `str.strip` (ASCII subset). -/
def isPyWS (c : Char) : Bool := c = ' ' || c = '\t' || c = '\n' || c = '\r'

/-- Python `str.strip()`. -/
def pyStrip (s : String) : String :=
  String.mk (((s.toList.dropWhile isPyWS).reverse.dropWhile isPyWS).reverse)

/-- ASCII lower-casing of one character, as Python `str.lower` does on ASCII. -/
def pyLowerChar (c : Char) : Char :=
  if 'A' ≤ c && c ≤ 'Z' then Char.ofNat (c.toNat + 32) else c

/-- Python `str.lower()` (ASCII subset). -/
def pyLower (s : String) : String := String.mk (s.toList.map pyLowerChar)

/-- Python `str.startswith(pre)`. -/
def pyStartsWith (s pre : String) : Bool := pre.toList.isPrefixOf s.toList

/-- Python `str.endswith(suf)`. -/
def pyEndsWith (s suf : String) : Bool := suf.toList.isSuffixOf s.toList

/-- Split a character list at every occurrence of `c` (Python `str.split(c)`). -/
def splitOnChar (c : Char) (l : List Char) : List (List Char) :=
  l.foldr
    (fun ch acc =>
      if ch = c then [] :: acc
      else
        match acc with
        | h :: t => (ch :: h) :: t
        | [] => [[ch]])
    [[]]

/-- Python `str.split(sep)` for a one-character separator. -/
def pySplit (sep : Char) (s : String) : List String :=
  (splitOnChar sep s.toList).map String.mk

/-- Value of a non-empty all-digit character list. -/
def digitsVal (l : List Char) : Option Nat :=
  if l = [] then none
  else if l.all Char.isDigit then some (l.foldl (fun n c => n * 10 + (c.toNat - 48)) 0)
  else none

/-- Python `int(s)` on decimal literals: optional surrounding whitespace,
optional sign, digits; anything else raises `ValueError`, modelled as `none`. -/
def pyInt (s : String) : Option Int :=
  match (pyStrip s).toList with
  | '-' :: rest => (digitsVal rest).map (fun n => -(n : Int))
  | '+' :: rest => (digitsVal rest).map (fun n => (n : Int))
  | l => (digitsVal l).map (fun n => (n : Int))

/-- Number of `"` characters in a line (Python `line.count(chr(34))`). -/
def countQuotes (s : String) : Nat := s.toList.count '"'

/-- Index of the last dot in a character list, if any. -/
def lastDotIdx (cs : List Char) : Option Nat :=
  (List.range cs.length).foldl (fun acc i => if cs.getD i ' ' = '.' then some i else acc) none

/-- `pathlib.PurePath.suffix` of a single filename component: the part from the
last dot on, provided that dot is neither the first nor the last character. -/
def pySuffix (s : String) : String :=
  let cs := s.toList
  match lastDotIdx cs with
  | some i => if 0 < i && i < cs.length - 1 then String.mk (cs.drop i) else ""
  | none => ""

/-- `pathlib.PurePath.stem` of a single filename component. -/
def pyStem (s : String) : String :=
  let cs := s.toList
  match lastDotIdx cs with
  | some i => if 0 < i && i < cs.length - 1 then String.mk (cs.take i) else s
  | none => s

/-- `pathlib` `/` operator on path strings. -/
def pyJoin (a b : String) : String := a ++ "/" ++ b

/-- Rendering of a path stored as a component list (`str(Path(...))`). -/
def pathStr (p : List String) : String :=
  String.mk (List.intercalate ['/'] (p.map String.toList))

-- ======================================================================
-- app/utils/os.py
-- ======================================================================

/-- The OS kinds distinguished by `app.utils.os.get_os`. -/
inductive OSType where
  | WINDOWS
  | LINUX
  | UNKNOWN
deriving DecidableEq

/-- `executable_extensions()` from app/utils/os.py, parametrised by the OS the
process would detect. -/
def executable_extensions (os : OSType) : List String :=
  match os with
  | OSType.WINDOWS => [".exe", ".bat", ".cmd", ".ps1", ".py"]
  | OSType.LINUX => [".sh", ".py"]
  | OSType.UNKNOWN => []

-- ======================================================================
-- app/discovery.py data model
-- ======================================================================

namespace discovery

/-- The `source` literal of app/discovery.py's `DiscoveredApp`. -/
inductive Source where
  | steam
  | filesystem
  | manual
deriving DecidableEq

/-- `DiscoveredApp` dataclass of app/discovery.py.  The `path` is stored as the
sequence of path components handed to `Path`. -/
structure DiscoveredApp where
  name : String
  path : List String
  source : Source
  confidence : Int
deriving DecidableEq

end discovery

-- ======================================================================
-- app/steam_discovery.py
-- ======================================================================

namespace steam_discovery

/-- `SteamApp` dataclass. -/
structure SteamApp where
  appid : Int
  name : String
  install_dir : String
deriving DecidableEq

/-- The external state read by app/steam_discovery.py: detected OS, the user's
home directory, existence of paths, the line contents of text files (`none`
models an `OSError` while opening/reading), the directory listing of per-app
manifest files in each library (filename together with its content), and
`Path.resolve` as an abstract canonicalisation function. -/
structure SteamFS where
  os : OSType
  home : String
  pathExists : String → Bool
  fileLines : String → Option (List String)
  manifests : String → List (String × Option (List String))
  resolve : String → String

/-- `find_steam_root`. -/
def find_steam_root (fs : SteamFS) : Option String :=
  let root : Option String :=
    match fs.os with
    | OSType.WINDOWS => some "C:/Program Files (x86)/Steam"
    | OSType.LINUX => some (pyJoin (pyJoin fs.home ".steam") "steam")
    | OSType.UNKNOWN => none
  match root with
  | none => none
  | some p => if fs.pathExists p then some p else none

/-- `parse_libraryfolders_vdf`: tolerant line scan; a line with at least four
quote characters contributes its fourth quote-split token's `steamapps`
subdirectory when that directory exists.  An `OSError` opening the file
(`fs.fileLines _ = none`) yields the empty list. -/
def parse_libraryfolders_vdf (fs : SteamFS) (path : String) : List String :=
  match fs.fileLines path with
  | none => []
  | some ls =>
    ls.foldl
      (fun libraries raw =>
        let line := pyStrip raw
        if 4 ≤ countQuotes line then
          let value := (pySplit '"' line).getD 3 ""
          let steamapps := pyJoin value "steamapps"
          if fs.pathExists steamapps then libraries ++ [steamapps] else libraries
        else libraries)
      []

/-- `find_steam_libraries`: default library plus the ones listed in
`libraryfolders.vdf`, de-duplicated by `Path.resolve` (the Python code builds
`list({lib.resolve() for lib in libraries})`; `List.dedup` models the set). -/
def find_steam_libraries (fs : SteamFS) : List String :=
  match find_steam_root fs with
  | none => []
  | some steam_root =>
    let defaultLib := pyJoin steam_root "steamapps"
    let libs1 := if fs.pathExists defaultLib then [defaultLib] else []
    let vdf := pyJoin defaultLib "libraryfolders.vdf"
    let libraries :=
      libs1 ++ (if fs.pathExists vdf then parse_libraryfolders_vdf fs vdf else [])
    (libraries.map fs.resolve).dedup

/-- One step of `parse_acf`'s loop: fold a raw line into the accumulated dict
(modelled as a lookup function). -/
def acfLine (data : String → Option String) (raw : String) : String → Option String :=
  let line := pyStrip raw
  if line = "" || pyStartsWith line "//" then data
  else if 4 ≤ countQuotes line then
    let parts := pySplit '"' line
    fun x => if x = parts.getD 1 "" then some (parts.getD 3 "") else data x
  else data

/-- `parse_acf` applied to the lines of an already-opened file. -/
def parse_acf_lines (lines : List String) : String → Option String :=
  lines.foldl acfLine (fun _ => none)

/-- `parse_acf`: an `OSError` opening/reading the file (`none` content) yields
the empty mapping. -/
def parse_acf (content : Option (List String)) : String → Option String :=
  match content with
  | none => fun _ => none
  | some ls => parse_acf_lines ls

/-- The filename filter realised by `steamapps.glob(
"appmanifest_*.acf")`. -/
def globMatch (name : String) : Bool :=
  pyStartsWith name "appmanifest_" && pyEndsWith name ".acf"

/-- Body of the manifest loop of `find_installed_steam_apps`: id extraction
from the filename (failure is skipped), tolerant parse, name defaulting, and
install-directory resolution. -/
def manifestToApp (steamapps : String) (fname : String) (content : Option (List String)) :
    Option SteamApp :=
  match pyInt ((pySplit '_' (pyStem fname)).getD 1 "") with
  | none => none
  | some appid =>
    let acf := parse_acf content
    let name := (acf "name").getD ("Steam App " ++ toString appid)
    let install_dir :=
      match acf "installdir" with
      | some d => if d = "" then steamapps else pyJoin (pyJoin steamapps "common") d
      | none => steamapps
    some { appid := appid, name := name, install_dir := install_dir }

/-- `find_installed_steam_apps`. -/
def find_installed_steam_apps (fs : SteamFS) : List SteamApp :=
  (find_steam_libraries fs).flatMap
    (fun steamapps =>
      ((fs.manifests steamapps).filter (fun m => globMatch m.1)).filterMap
        (fun m => manifestToApp steamapps m.1 m.2))

/-- `steam_apps_to_discovered`: conversion to `DiscoveredApp` with a
`steam://run/<appid>` launch identifier, `source = steam`, confidence 60. -/
def steam_apps_to_discovered (apps : List SteamApp) : List discovery.DiscoveredApp :=
  apps.map
    (fun a =>
      { name := a.name
        path := ["steam://run/" ++ toString a.appid]
        source := discovery.Source.steam
        confidence := 60 })

end steam_discovery

-- ======================================================================
-- Filesystem trees (shared by both walkers)
-- ======================================================================

/-- A regular file: its name and whether the executable bit is set
(`os.access(path, os.X_OK)`). -/
structure PyFile where
  name : String
  xbit : Bool
deriving DecidableEq

mutual
/-- A directory: named subdirectories and the regular files it contains. -/
inductive FSTree where
  | node (dirs : FSDirs) (files : List PyFile) : FSTree
deriving DecidableEq
/-- The subdirectory list of a directory. -/
inductive FSDirs where
  | dnil : FSDirs
  | dcons (name : String) (t : FSTree) (rest : FSDirs) : FSDirs
deriving DecidableEq
end

mutual
/-- Whether every file name in the tree is non-empty (true of any directory
tree an operating system can produce). -/
def FSTree.namesNonempty : FSTree → Bool
  | FSTree.node dirs files =>
    files.all (fun f => !(f.name = "")) && FSDirs.namesNonempty dirs
/-- `FSTree.namesNonempty` on a subdirectory list. -/
def FSDirs.namesNonempty : FSDirs → Bool
  | FSDirs.dnil => true
  | FSDirs.dcons _ t rest => FSTree.namesNonempty t && FSDirs.namesNonempty rest
end

-- ======================================================================
-- hi.py: opt-in filesystem walker
-- ======================================================================

namespace types

/-- `DiscoveredApp` dataclass of app/types/uvrlapp.py (name and path only).
The path is kept as its component list: scan root, directories below it,
filename. -/
structure DiscoveredApp where
  name : String
  path : List String
deriving DecidableEq

end types

namespace hi

/-- One entry of the configured root list (a JSON object in the config store;
the walker reads `path`, `enabled`, `recursive` and `max_depth`). -/
structure RootSpec where
  path : String
  enabled : Bool
  recursive : Bool
  max_depth : Nat
  label : String
deriving DecidableEq

mutual
/-- The `os.walk` loop of `discover_filesystem_apps_optin` on one tree:
for the directory currently at depth `d` below the root it lists the files of
that directory, removes subdirectories whose lower-cased name is in
`excluded_dir_names`, clears the remaining subdirectory list when
`d ≥ max_depth`, and recurses.  Each emitted pair is the file together with
the directory components between the root and the file. -/
def walkAux (excluded_dir_names : List String) (max_depth : Nat) :
    FSTree → Nat → List (List String × PyFile)
  | FSTree.node dirs files, d =>
    files.map (fun f => ([], f)) ++ walkDirs excluded_dir_names max_depth dirs d
/-- `walkAux` on the (already depth-checked) subdirectory list of the
directory at depth `d`. -/
def walkDirs (excluded_dir_names : List String) (max_depth : Nat) :
    FSDirs → Nat → List (List String × PyFile)
  | FSDirs.dnil, _ => []
  | FSDirs.dcons name t rest, d =>
    (if excluded_dir_names.contains (pyLower name) || max_depth ≤ d then []
     else (walkAux excluded_dir_names max_depth t (d + 1)).map
       (fun e => (name :: e.1, e.2))) ++
    walkDirs excluded_dir_names max_depth rest d
end

/-- Body of the per-root loop of `discover_filesystem_apps_optin`: skip
disabled roots and roots whose path does not exist, force the depth bound to 1
when `recursive` is false, walk, and classify each file by the OS rule
(extension match, plus the executable bit on Linux). -/
def walkRootSpec (os : OSType) (fs : String → Option FSTree)
    (excluded_dir_names : List String) (r : RootSpec) : List types.DiscoveredApp :=
  if r.enabled then
    match fs r.path with
    | none => []
    | some t =>
      let max_depth := if r.recursive then r.max_depth else 1
      let exts := executable_extensions os
      (walkAux excluded_dir_names max_depth t 0).filterMap
        (fun e =>
          let keep :=
            match os with
            | OSType.WINDOWS => exts.contains (pyLower (pySuffix e.2.name))
            | OSType.LINUX => exts.contains (pyLower (pySuffix e.2.name)) || e.2.xbit
            | OSType.UNKNOWN => exts.contains (pyLower (pySuffix e.2.name))
          if keep then some { name := pyStem e.2.name, path := r.path :: e.1 ++ [e.2.name] }
          else none)
  else []

/-- `discover_filesystem_apps_optin`. -/
def discover_filesystem_apps_optin (os : OSType) (fs : String → Option FSTree)
    (roots : List RootSpec) (excluded_dir_names : List String) : List types.DiscoveredApp :=
  roots.flatMap (walkRootSpec os fs excluded_dir_names)

end hi

-- ======================================================================
-- app/discovery.py: legacy filesystem walker
-- ======================================================================

namespace discovery

/-- `LAUNCHABLE_EXTENSIONS` of app/discovery.py. -/
def LAUNCHABLE_EXTENSIONS : List String := [".exe", ".bat", ".cmd", ".ps1", ".py"]

/-- `EXCLUDED_DIR_NAMES` of app/discovery.py. -/
def EXCLUDED_DIR_NAMES : List String :=
  ["windows", ".venv", "node_modules", "__pycache__", ".git", ".idea",
   "temp", "tmp", "videos", "pictures", "music", "gallery"]

/-- `should_skip_dir`, applied to the full component list of a directory path
(its last component is `path.name`). -/
def should_skip_dir (parts : List String) (include_documents : Bool) : Bool :=
  let name := pyLower (parts.getLastD "")
  if EXCLUDED_DIR_NAMES.contains name then true
  else if !include_documents && name = "documents" then true
  else parts.any (fun part => [".venv", "node_modules"].contains (pyLower part))

mutual
/-- `Path.rglob` of a directory tree: every descendant directory (`none`) and
file (`some f`), keyed by its component list relative to the walked root. -/
def rglobTree : FSTree → List (List String × Option PyFile)
  | FSTree.node dirs files =>
    rglobDirs dirs ++ files.map (fun f => ([f.name], some f))
/-- `rglobTree` on a subdirectory list. -/
def rglobDirs : FSDirs → List (List String × Option PyFile)
  | FSDirs.dnil => []
  | FSDirs.dcons name t rest =>
    ([name], none) :: ((rglobTree t).map (fun e => (name :: e.1, e.2)) ++ rglobDirs rest)
end

/-- Body of the per-root loop of `discover_filesystem_apps`: enumerate every
descendant with `rglob`, skip entries whose relative component count exceeds
`max_depth`, and keep files with a launchable extension.  For a directory the
source computes `should_skip_dir` and then `continue`s on both branches, so
directories contribute nothing either way. -/
def walkRootLegacy (include_documents : Bool) (max_depth : Nat) (rootPath : String)
    (t : FSTree) : List DiscoveredApp :=
  (rglobTree t).filterMap
    (fun e =>
      if max_depth < e.1.length then none
      else
        match e.2 with
        | none =>
          if should_skip_dir (rootPath :: e.1) include_documents then none else none
        | some f =>
          if LAUNCHABLE_EXTENSIONS.contains (pyLower (pySuffix f.name)) then
            some { name := pyStem f.name, path := rootPath :: e.1,
                   source := Source.filesystem, confidence := 40 }
          else none)

/-- `filesystem_search_roots` of app/discovery.py: the home directory plus four
environment-derived install locations (an unset variable contributes
`Path("")`), kept when they exist on disk (existence is modelled as the tree
map returning a tree). -/
def filesystem_search_roots (home : String) (env : String → Option String)
    (fsTree : String → Option FSTree) : List String :=
  ([home] ++
    [(env "ProgramFiles").getD "", (env "ProgramFiles(x86)").getD "",
     (env "LOCALAPPDATA").getD "", (env "PROGRAMDATA").getD ""]).filter
    (fun r => (fsTree r).isSome)

/-- `discover_filesystem_apps` of app/discovery.py. -/
def discover_filesystem_apps (include_documents : Bool) (max_depth : Nat) (home : String)
    (env : String → Option String) (fsTree : String → Option FSTree) : List DiscoveredApp :=
  (filesystem_search_roots home env fsTree).flatMap
    (fun root =>
      match fsTree root with
      | some t => walkRootLegacy include_documents max_depth root t
      | none => [])

end discovery

-- ======================================================================
-- app/discovery/applist_manager.py
-- ======================================================================

namespace applist_manager

/-- Python exceptions that escape the applist_manager functions. -/
inductive PyErr where
  | unboundLocal
  | ioError
deriving DecidableEq

/-- `filesystem_search_roots` of app/discovery/applist_manager.py: an OS-keyed
table of environment variable names (with the source's misspellings kept),
resolved through the environment and filtered by existence.  On an
unrecognised OS the local `platform_env_var` is never assigned, so the list
comprehension raises `UnboundLocalError`. -/
def filesystem_search_roots (os : OSType) (env : String → Option String)
    (pathExists : String → Bool) : Except PyErr (List String) :=
  match os with
  | OSType.LINUX =>
    Except.ok ((["UVRL_APPS"].filterMap env).filter pathExists)
  | OSType.WINDOWS =>
    Except.ok
      (((["HOME", "UVRL_APPS", "ProgramFiles", "ProgamFiles(x86)", "LOCALAPPDATA",
          "PROGAMDATA"]).filterMap env).filter pathExists)
  | OSType.UNKNOWN => Except.error PyErr.unboundLocal

/-- A parsed JSON document (only the shapes the allow-list code touches). -/
inductive Json where
  | obj : List (String × Json) → Json
  | str : String → Json
  | num : Int → Json

/-- Python `dict.get(k, d)` on an object document. -/
def jsonGetD (j : Json) (k : String) (d : Json) : Json :=
  match j with
  | Json.obj fields =>
    match fields.find? (fun f => f.1 == k) with
    | some f => f.2
    | none => d
  | _ => d

/-- Python `k in d` on an object document (`false` on the non-dict shapes). -/
def jsonHasKey (j : Json) (k : String) : Bool :=
  match j with
  | Json.obj fields => fields.any (fun f => f.1 == k)
  | _ => false

/-- `get_default_config().app_list_config_path`. -/
def app_list_config_path : String := "./assets/config/applist.json"

/-- `filter_steam_apps`: load `applist.json` through
`read_file_as_text`/`json_to_dict` (neither catches errors, so a missing or
unreadable file, or malformed JSON, propagates as `Except.error`), read the
`steam_apps` mapping (defaulting to the empty object), and keep exactly the
candidates whose rendered path is `steam://run/<appid>` with `str(appid)` a
key of that mapping.  `jsonFS` is the composite effect of reading and parsing
the document at a path. -/
def filter_steam_apps (jsonFS : String → Except PyErr Json)
    (apps : List types.DiscoveredApp) : Except PyErr (List types.DiscoveredApp) :=
  match jsonFS app_list_config_path with
  | Except.error e => Except.error e
  | Except.ok doc =>
    let steam_apps := jsonGetD doc "steam_apps" (Json.obj [])
    Except.ok
      (apps.filter
        (fun a =>
          let path_str := pathStr a.path
          if pyStartsWith path_str "steam://run/" then
            match pyInt (String.mk (path_str.toList.drop 12)) with
            | some appid => jsonHasKey steam_apps (toString appid)
            | none => false
          else false))

end applist_manager

-- ======================================================================
-- Spec-side restatement of the manifest-parser line rule (for refinement)
-- ======================================================================

/-- The spec's per-line classification for the manifest parser: a stripped
line that is blank, starts with the comment marker, or has fewer than four
quote characters contributes nothing; otherwise it contributes the entry
whose key is the second quote-split token and whose value is the fourth. -/
def acfLineSpec (raw : String) : Option (String × String) :=
  let line := pyStrip raw
  if line = "" || pyStartsWith line "//" || decide (countQuotes line < 4) then none
  else some ((pySplit '"' line).getD 1 "", (pySplit '"' line).getD 3 "")

/-- Apply a list of key/value assignments to a mapping, in order (later
assignments overwrite earlier ones). -/
def applyEntries (data : String → Option String) (es : List (String × String)) :
    String → Option String :=
  es.foldl (fun m e => fun x => if x = e.1 then some e.2 else m x) data

-- ======================================================================
-- Concrete states used by counterexamples and witnesses
-- ======================================================================

/-- A root directory holding only `sub/f.exe`. -/
def treeSub : FSTree :=
  FSTree.node (FSDirs.dcons "sub" (FSTree.node FSDirs.dnil [⟨"f.exe", false⟩]) FSDirs.dnil) []

/-- Tree map exposing `treeSub` at path `R`. -/
def fsSub : String → Option FSTree := fun p => if p = "R" then some treeSub else none

/-- A configured root at `R` with `recursive = false`. -/
def rootNonRecursive : hi.RootSpec :=
  { path := "R", enabled := true, recursive := false, max_depth := 5, label := "Custom" }

/-- The depth-scenario root directory: `a.exe`, `x/y/b.exe`, `x/y/z/c.exe`. -/
def treeDepth : FSTree :=
  FSTree.node
    (FSDirs.dcons "x"
      (FSTree.node
        (FSDirs.dcons "y"
          (FSTree.node
            (FSDirs.dcons "z" (FSTree.node FSDirs.dnil [⟨"c.exe", false⟩]) FSDirs.dnil)
            [⟨"b.exe", false⟩])
          FSDirs.dnil)
        [])
      FSDirs.dnil)
    [⟨"a.exe", false⟩]

/-- Tree map exposing `treeDepth` at path `R`. -/
def fsDepth : String → Option FSTree := fun p => if p = "R" then some treeDepth else none

/-- A configured root at `R` with `max_depth = 2`, recursive. -/
def rootDepth2 : hi.RootSpec :=
  { path := "R", enabled := true, recursive := true, max_depth := 2, label := "Custom" }

/-- A root directory holding only `node_modules/app.exe`. -/
def treeJunk : FSTree :=
  FSTree.node
    (FSDirs.dcons "node_modules" (FSTree.node FSDirs.dnil [⟨"app.exe", false⟩]) FSDirs.dnil)
    []

/-- Tree map exposing `treeJunk` at path `R`. -/
def fsJunk : String → Option FSTree := fun p => if p = "R" then some treeJunk else none

/-- Steam state with a `libraryfolders.vdf` listing the same library twice. -/
def sfsDupVdf : steam_discovery.SteamFS :=
  { os := OSType.LINUX
    home := "/h"
    pathExists := fun p =>
      p == "/h/.steam/steam" || p == "/h/.steam/steam/steamapps" ||
      p == "/h/.steam/steam/steamapps/libraryfolders.vdf" || p == "/d/steamapps"
    fileLines := fun p =>
      if p == "/h/.steam/steam/steamapps/libraryfolders.vdf" then
        some ["\"1\" \"/d\"", "\"2\" \"/d\""]
      else none
    manifests := fun _ => []
    resolve := fun p => p }

/-- Steam state with one manifest, `appmanifest_220.acf`, that has no `name`
field. -/
def sfsNoName : steam_discovery.SteamFS :=
  { os := OSType.LINUX
    home := "/h"
    pathExists := fun p => p == "/h/.steam/steam" || p == "/h/.steam/steam/steamapps"
    fileLines := fun _ => none
    manifests := fun lib =>
      if lib == "/h/.steam/steam/steamapps" then
        [("appmanifest_220.acf", some ["\"installdir\" \"HL2\""])]
      else []
    resolve := fun p => p }

/-- Steam state with one manifest, `appmanifest_1.acf`, whose `name` field is
present but empty. -/
def sfsEmptyName : steam_discovery.SteamFS :=
  { os := OSType.LINUX
    home := "/h"
    pathExists := fun p => p == "/h/.steam/steam" || p == "/h/.steam/steam/steamapps"
    fileLines := fun _ => none
    manifests := fun lib =>
      if lib == "/h/.steam/steam/steamapps" then
        [("appmanifest_1.acf", some ["\"name\" \"\""])]
      else []
    resolve := fun p => p }

/-- Allow-list store whose document has an empty `steam_apps` mapping. -/
def allowEmptyFS : String → Except applist_manager.PyErr applist_manager.Json :=
  fun _ => Except.ok (applist_manager.Json.obj [("steam_apps", applist_manager.Json.obj [])])

/-- Allow-list store whose file cannot be read. -/
def allowErrFS : String → Except applist_manager.PyErr applist_manager.Json :=
  fun _ => Except.error applist_manager.PyErr.ioError

/-- A platform-sourced candidate with launch identifier `steam://run/220`. -/
def app220 : types.DiscoveredApp := { name := "Half-Life 2", path := ["steam://run/220"] }

-- ======================================================================
-- Helper lemmas
-- ======================================================================

namespace hi

mutual
/-- Every entry emitted while walking a directory at depth d sits at absolute
depth at most the bound (or at the starting depth itself). -/
theorem walkAux_depth (excl : List String) (m : Nat) (t : FSTree) (d : Nat) :
    ∀ e ∈ walkAux excl m t d, e.1.length + d ≤ max d m := by
  match t with
  | FSTree.node dirs files =>
    intro e he
    simp only [walkAux, List.mem_append, List.mem_map] at he
    rcases he with ⟨f, _, rfl⟩ | he
    · simp
    · exact walkDirs_depth excl m dirs d e he
/-- Depth bound for the subdirectory traversal. -/
theorem walkDirs_depth (excl : List String) (m : Nat) (ds : FSDirs) (d : Nat) :
    ∀ e ∈ walkDirs excl m ds d, e.1.length + d ≤ max d m := by
  match ds with
  | FSDirs.dnil => intro e he; simp [walkDirs] at he
  | FSDirs.dcons name t rest =>
    intro e he
    simp only [walkDirs, List.mem_append] at he
    rcases he with he | he
    · by_cases hcond : (excl.contains (pyLower name) || decide (m ≤ d)) = true
      · rw [if_pos hcond] at he
        exact absurd he (List.not_mem_nil e)
      · rw [if_neg hcond] at he
        rcases List.mem_map.mp he with ⟨e2, he2, rfl⟩
        have hd : ¬ (m ≤ d) := fun hmd => hcond (by simp [hmd])
        have := walkAux_depth excl m t (d + 1) e2 he2
        simp only [List.length_cons]
        omega
    · exact walkDirs_depth excl m rest d e he
end

mutual
/-- Files emitted by the walk of a tree with non-empty file names have
non-empty names. -/
theorem walkAux_names (excl : List String) (m : Nat) (t : FSTree) (d : Nat)
    (hn : t.namesNonempty = true) :
    ∀ e ∈ walkAux excl m t d, ¬ (e.2.name = "") := by
  match t with
  | FSTree.node dirs files =>
    intro e he
    simp only [FSTree.namesNonempty, Bool.and_eq_true, List.all_eq_true] at hn
    simp only [walkAux, List.mem_append, List.mem_map] at he
    rcases he with ⟨f, hf, rfl⟩ | he
    · have := hn.1 f hf
      simpa using this
    · exact walkDirs_names excl m dirs d hn.2 e he
/-- Non-empty file names along the subdirectory traversal. -/
theorem walkDirs_names (excl : List String) (m : Nat) (ds : FSDirs) (d : Nat)
    (hn : ds.namesNonempty = true) :
    ∀ e ∈ walkDirs excl m ds d, ¬ (e.2.name = "") := by
  match ds with
  | FSDirs.dnil => intro e he; simp [walkDirs] at he
  | FSDirs.dcons name t rest =>
    intro e he
    simp only [FSDirs.namesNonempty, Bool.and_eq_true] at hn
    simp only [walkDirs, List.mem_append] at he
    rcases he with he | he
    · by_cases hcond : (excl.contains (pyLower name) || decide (m ≤ d)) = true
      · rw [if_pos hcond] at he
        exact absurd he (List.not_mem_nil e)
      · rw [if_neg hcond] at he
        rcases List.mem_map.mp he with ⟨e2, he2, rfl⟩
        exact walkAux_names excl m t (d + 1) hn.1 e2 he2
    · exact walkDirs_names excl m rest d hn.2 e he
end

/-- Every app the per-root walk emits comes from a traversal entry: its path is
root, then the directory components, then the filename. -/
theorem walkRootSpec_shape (os : OSType) (fs : String → Option FSTree)
    (excl : List String) (r : RootSpec) (a : types.DiscoveredApp)
    (ha : a ∈ walkRootSpec os fs excl r) :
    ∃ t, fs r.path = some t ∧
      ∃ e ∈ walkAux excl (if r.recursive then r.max_depth else 1) t 0,
        a.name = pyStem e.2.name ∧ a.path = r.path :: e.1 ++ [e.2.name] := by
  unfold walkRootSpec at ha
  by_cases hen : r.enabled = true
  · rw [if_pos hen] at ha
    cases hft : fs r.path with
    | none => rw [hft] at ha; exact absurd ha (List.not_mem_nil a)
    | some t =>
      rw [hft] at ha
      simp only at ha
      rcases List.mem_filterMap.mp ha with ⟨e, he, heq⟩
      refine ⟨t, rfl, e, he, ?_⟩
      split at heq
      · cases heq
        exact ⟨rfl, rfl⟩
      · cases heq
  · rw [if_neg hen] at ha
    exact absurd ha (List.not_mem_nil a)

/-- Path-length bound for the per-root walk: at most effective depth bound
plus the root and filename components. -/
theorem walkRootSpec_path_len (os : OSType) (fs : String → Option FSTree)
    (excl : List String) (r : RootSpec) (a : types.DiscoveredApp)
    (ha : a ∈ walkRootSpec os fs excl r) :
    a.path.length ≤ (if r.recursive then r.max_depth else 1) + 2 := by
  obtain ⟨t, _, e, he, _, hpath⟩ := walkRootSpec_shape os fs excl r a ha
  have hd := walkAux_depth excl (if r.recursive then r.max_depth else 1) t 0 e he
  rw [hpath]
  simp only [List.length_cons, List.length_append, List.length_singleton, List.length_nil]
  omega

end hi

/-- The stem of a non-empty filename is non-empty. -/
theorem pyStem_ne_empty (s : String) (hs : s ≠ "") : pyStem s ≠ "" := by
  simp only [pyStem]
  cases h : lastDotIdx s.toList with
  | none => exact hs
  | some i =>
    show (if (decide (0 < i) && decide (i < s.toList.length - 1)) = true then
        String.mk (List.take i s.toList) else s) ≠ ""
    by_cases hc : (decide (0 < i) && decide (i < s.toList.length - 1)) = true
    · rw [if_pos hc]
      simp only [Bool.and_eq_true, decide_eq_true_eq] at hc
      intro hcon
      have h2 : List.take i s.toList = [] := congrArg String.data hcon
      have h3 := congrArg List.length h2
      simp only [List.length_take, List.length_nil] at h3
      omega
    · rw [if_neg hc]
      exact hs

/-- The generated placeholder name is never the empty string. -/
theorem steam_app_default_ne (s : String) : ("Steam App " ++ s) ≠ "" := by
  intro h
  have hdat : ("Steam App ").data ++ s.data = ([] : List Char) := congrArg String.data h
  have h2 := List.append_eq_nil.mp hdat
  exact absurd h2.1 (by decide)

/-- Prepending one assignment to `applyEntries`. -/
theorem applyEntries_cons (d : String → Option String) (e : String × String)
    (es : List (String × String)) :
    applyEntries d (e :: es) = applyEntries (fun x => if x = e.1 then some e.2 else d x) es := rfl

/-- One parse step agrees with the spec's per-line classification. -/
theorem acfLine_eq_spec (d : String → Option String) (raw : String) :
    steam_discovery.acfLine d raw = applyEntries d (acfLineSpec raw).toList := by
  simp only [steam_discovery.acfLine, acfLineSpec]
  by_cases h1 : (decide (pyStrip raw = "") || pyStartsWith (pyStrip raw) "//") = true
  · rw [if_pos h1]
    have h2 : (decide (pyStrip raw = "") || pyStartsWith (pyStrip raw) "//" ||
        decide (countQuotes (pyStrip raw) < 4)) = true := by
      rw [h1]; rfl
    rw [if_pos h2]
    rfl
  · rw [if_neg h1]
    by_cases h3 : 4 ≤ countQuotes (pyStrip raw)
    · rw [if_pos h3]
      have h4 : ¬ ((decide (pyStrip raw = "") || pyStartsWith (pyStrip raw) "//" ||
          decide (countQuotes (pyStrip raw) < 4)) = true) := by
        simp only [Bool.or_eq_true, decide_eq_true_eq] at h1 ⊢
        push_neg at h1
        rintro ((ha | hb) | hc)
        · exact h1.1 ha
        · exact absurd hb h1.2
        · omega
      rw [if_neg h4]
      rfl
    · have h5 : (decide (pyStrip raw = "") || pyStartsWith (pyStrip raw) "//" ||
          decide (countQuotes (pyStrip raw) < 4)) = true := by
        simp only [Bool.or_eq_true, decide_eq_true_eq]
        right
        omega
      rw [if_neg h3, if_pos h5]
      rfl

/-- The whole parse fold agrees with applying the spec's per-line entries in
order. -/
theorem foldl_acfLine_eq (lines : List String) (d : String → Option String) :
    lines.foldl steam_discovery.acfLine d = applyEntries d (lines.filterMap acfLineSpec) := by
  induction lines generalizing d with
  | nil => rfl
  | cons l ls ih =>
    simp only [List.foldl_cons, List.filterMap_cons]
    cases hspec : acfLineSpec l with
    | none =>
      rw [ih, acfLine_eq_spec, hspec]
      rfl
    | some e =>
      rw [ih, acfLine_eq_spec, hspec]
      rfl

/-- Looking up a key after applying assignments returns the value of the last
assignment to that key (or falls back to the base mapping). -/
theorem applyEntries_findLast (es : List (String × String)) (d : String → Option String)
    (k : String) :
    applyEntries d es k =
      match es.reverse.find? (fun e => e.1 == k) with
      | some e => some e.2
      | none => d k := by
  induction es generalizing d with
  | nil => rfl
  | cons e es ih =>
    rw [applyEntries_cons, ih]
    simp only [List.reverse_cons, List.find?_append]
    cases h : es.reverse.find? (fun f => f.1 == k) with
    | some f => rfl
    | none =>
      simp only [Option.none_or]
      cases hpe : (e.1 == k) with
      | true =>
        have hfind : (List.find? (fun f => f.1 == k) [e]) = some e :=
          List.find?_cons_of_pos _ hpe
        rw [hfind]
        have hk : k = e.1 := (eq_of_beq hpe).symm
        simp [hk]
      | false =>
        have hfind : (List.find? (fun f => f.1 == k) [e]) = none := by
          rw [List.find?_cons_of_neg _ (by simp [hpe])]
          rfl
        rw [hfind]
        have hk : ¬ (k = e.1) := by
          intro hkk
          rw [hkk] at hpe
          simp at hpe
        simp [hk]

/-- Every library the resolver returns is in the image of `Path.resolve`. -/
theorem mem_find_steam_libraries (fs : steam_discovery.SteamFS) (x : String)
    (hx : x ∈ steam_discovery.find_steam_libraries fs) : ∃ y, x = fs.resolve y := by
  unfold steam_discovery.find_steam_libraries at hx
  cases h : steam_discovery.find_steam_root fs with
  | none => rw [h] at hx; exact absurd hx (List.not_mem_nil x)
  | some root =>
    rw [h] at hx
    simp only at hx
    have hx2 := List.mem_dedup.mp hx
    rcases List.mem_map.mp hx2 with ⟨y, _, rfl⟩
    exact ⟨y, rfl⟩

/-- The resolver's output list has no duplicate elements. -/
theorem nodup_find_steam_libraries (fs : steam_discovery.SteamFS) :
    (steam_discovery.find_steam_libraries fs).Nodup := by
  unfold steam_discovery.find_steam_libraries
  cases h : steam_discovery.find_steam_root fs with
  | none => simp
  | some root => exact List.nodup_dedup _

-- ======================================================================
-- Claim theorems
-- ======================================================================

/-- Claim C1 (code bug): on an unrecognised OS,
applist_manager.filesystem_search_roots raises UnboundLocalError (the local
`platform_env_var` is only assigned for Linux and Windows), so the
filesystem-walk and discover entry points built on it raise instead of
returning a list, contradicting the claim's never-raise contract. -/
theorem c1_unknown_os_unbound_local :
    applist_manager.filesystem_search_roots OSType.UNKNOWN (fun _ => none) (fun _ => false) =
      Except.error applist_manager.PyErr.unboundLocal := rfl

/-- Claim C2, counterexample: with authoritative filtering and an unreadable
allow-list file, filter_steam_apps propagates the I/O error instead of
returning an empty platform-sourced list without failing. -/
theorem c2_counterexample :
    applist_manager.filter_steam_apps allowErrFS [app220] =
        Except.error applist_manager.PyErr.ioError ∧
      (Except.error applist_manager.PyErr.ioError ≠
        Except.ok ([] : List types.DiscoveredApp)) := by
  constructor
  · rfl
  · intro h
    cases h

/-- Claim C2, amended: with authoritative filtering, an allow-list document
whose steam_apps mapping is empty yields zero platform-sourced entries no
matter how many candidates the manifests produced; an unreadable allow-list
file makes filter_steam_apps propagate the error rather than fail closed. -/
theorem c2_authoritative_fail_closed :
    (∀ apps, applist_manager.filter_steam_apps allowEmptyFS apps = Except.ok []) ∧
    (∀ apps, applist_manager.filter_steam_apps allowErrFS apps =
      Except.error applist_manager.PyErr.ioError) := by
  constructor
  · intro apps
    show Except.ok (apps.filter _) = Except.ok []
    refine congrArg Except.ok (List.filter_eq_nil_iff.mpr ?_)
    intro a _
    simp only []
    by_cases h1 : (pyStartsWith (pathStr a.path) "steam://run/") = true
    · rw [if_pos h1]
      cases pyInt (String.mk ((pathStr a.path).toList.drop 12)) with
      | none => simp
      | some appid => simp [applist_manager.jsonGetD, applist_manager.jsonHasKey]
    · rw [if_neg h1]
      simp
  · intro apps
    rfl

/-- Claim C3, counterexample: a root with recursive = false still returns the
file R/sub/f.exe, which lies inside a subdirectory of the root (its component
list has three entries, not the two of a direct child). -/
theorem c3_counterexample :
    rootNonRecursive.recursive = false ∧
      (hi.discover_filesystem_apps_optin OSType.WINDOWS fsSub [rootNonRecursive] []).map
          (fun a => a.path) = [["R", "sub", "f.exe"]] ∧
      (["R", "sub", "f.exe"] : List String).length ≠ 2 := by
  refine ⟨rfl, by decide, by decide⟩

/-- Claim C3, amended: with recursive = false the effective depth bound is 1,
so every returned file lies at depth at most 1 below the root: its component
list (root, directories, filename) has length at most 3. -/
theorem c3_nonrecursive_walk_depth (os : OSType) (fs : String → Option FSTree)
    (excl : List String) (r : hi.RootSpec) (a : types.DiscoveredApp)
    (hrec : r.recursive = false) (ha : a ∈ hi.walkRootSpec os fs excl r) :
    a.path.length ≤ 3 := by
  have := hi.walkRootSpec_path_len os fs excl r a ha
  rw [hrec] at this
  simpa using this

/-- Claim C3 witness: the amended bound applied to the concrete non-recursive
root and the file it returns. -/
theorem c3_nonrecursive_walk_depth_witness :
    ((⟨"f", ["R", "sub", "f.exe"]⟩ : types.DiscoveredApp)).path.length ≤ 3 :=
  c3_nonrecursive_walk_depth OSType.WINDOWS fsSub [] rootNonRecursive
    ⟨"f", ["R", "sub", "f.exe"]⟩ rfl (by decide)

/-- Claim C4: the walk never returns a file deeper than the effective depth
bound (the path component list is root + at most bound directories +
filename), and in the scenario root with max_depth = 2 the walk returns
exactly a.exe (depth 0) and x/y/b.exe (depth 2) while x/y/z/c.exe (depth 3)
is absent. -/
theorem c4_walk_depth_bound :
    (∀ (os : OSType) (fs : String → Option FSTree) (excl : List String)
        (r : hi.RootSpec) (a : types.DiscoveredApp),
        a ∈ hi.walkRootSpec os fs excl r →
        a.path.length ≤ (if r.recursive then r.max_depth else 1) + 2) ∧
      (hi.discover_filesystem_apps_optin OSType.WINDOWS fsDepth [rootDepth2] []).map
          (fun a => a.path) = [["R", "a.exe"], ["R", "x", "y", "b.exe"]] := by
  constructor
  · intro os fs excl r a ha
    exact hi.walkRootSpec_path_len os fs excl r a ha
  · decide

/-- Claim C4 witness: the bound applied to the depth-2 file of the scenario
root. -/
theorem c4_walk_depth_bound_witness :
    ((⟨"b", ["R", "x", "y", "b.exe"]⟩ : types.DiscoveredApp)).path.length ≤
      (if rootDepth2.recursive then rootDepth2.max_depth else 1) + 2 :=
  c4_walk_depth_bound.1 OSType.WINDOWS fsDepth [] rootDepth2
    ⟨"b", ["R", "x", "y", "b.exe"]⟩ (by decide)

/-- Claim C5 (code bug): discovery.discover_filesystem_apps returns
R/node_modules/app.exe even though node_modules is in the built-in exclusion
list and should_skip_dir classifies the directory as skipped — the walker
computes should_skip_dir for directories but continues on both branches, so
files below excluded directories are still emitted. -/
theorem c5_excluded_dir_files_returned :
    "node_modules" ∈ discovery.EXCLUDED_DIR_NAMES ∧
      discovery.should_skip_dir ["R", "node_modules"] false = true ∧
      (discovery.discover_filesystem_apps false 6 "R" (fun _ => none) fsJunk).map
          (fun a => a.path) = [["R", "node_modules", "app.exe"]] := by
  refine ⟨by decide, by decide, by decide⟩

/-- Claim C6: an unreadable manifest parses to the empty mapping, and parsing
the lines of a readable one is exactly the spec's per-line rule — blank lines,
comment lines and lines with fewer than four quote characters contribute
nothing, every other line contributes the entry built from its second and
fourth quote-split tokens, applied in order.  Both sides are total functions,
so no input raises. -/
theorem c6_manifest_parser_semantics :
    (∀ k, steam_discovery.parse_acf none k = none) ∧
    (∀ lines k, steam_discovery.parse_acf (some lines) k =
      applyEntries (fun _ => none) (lines.filterMap acfLineSpec) k) := by
  refine ⟨fun k => rfl, fun lines k => ?_⟩
  show steam_discovery.parse_acf_lines lines k = _
  unfold steam_discovery.parse_acf_lines
  rw [foldl_acfLine_eq]

/-- Claim C7: whenever Path.resolve is idempotent (canonicalisation),
find_steam_libraries never contains two entries with the same canonical form,
however many duplicates the library-folders file lists. -/
theorem c7_no_duplicate_canonical_paths (fs : steam_discovery.SteamFS)
    (hres : ∀ p, fs.resolve (fs.resolve p) = fs.resolve p) :
    (steam_discovery.find_steam_libraries fs).Pairwise
      (fun a b => fs.resolve a ≠ fs.resolve b) := by
  have hfix : ∀ x ∈ steam_discovery.find_steam_libraries fs, fs.resolve x = x := by
    intro x hx
    obtain ⟨y, rfl⟩ := mem_find_steam_libraries fs x hx
    exact hres y
  refine List.Pairwise.imp_of_mem ?_ (nodup_find_steam_libraries fs)
  intro a b ha hb hne
  rw [hfix a ha, hfix b hb]
  exact hne

/-- Claim C7 witness: the resolver applied to a state whose libraryfolders.vdf
lists the same library twice. -/
theorem c7_no_duplicate_canonical_paths_witness :
    (steam_discovery.find_steam_libraries sfsDupVdf).Pairwise
      (fun a b => sfsDupVdf.resolve a ≠ sfsDupVdf.resolve b) :=
  c7_no_duplicate_canonical_paths sfsDupVdf (fun _ => rfl)

/-- Claim C8, counterexample: the manifest appmanifest_220.acf without a name
field produces the record name "Steam App 220", not the claimed "App 220". -/
theorem c8_counterexample :
    (steam_discovery.find_installed_steam_apps sfsNoName).map (fun a => a.name) =
        ["Steam App 220"] ∧
      steam_discovery.parse_acf (some ["\"installdir\" \"HL2\""]) "name" = none ∧
      ("Steam App 220" : String) ≠ "App 220" := by
  refine ⟨by decide, by decide, by decide⟩

/-- Claim C8, amended: when the manifest's parsed mapping lacks a name key,
the platform record's name is the placeholder "Steam App <appid>" with
<appid> the id extracted from the filename. -/
theorem c8_missing_name_placeholder (steamapps fname : String)
    (content : Option (List String)) (appid : Int)
    (hid : pyInt ((pySplit '_' (pyStem fname)).getD 1 "") = some appid)
    (hname : steam_discovery.parse_acf content "name" = none) :
    ∃ d, steam_discovery.manifestToApp steamapps fname content =
      some { appid := appid, name := "Steam App " ++ toString appid, install_dir := d } := by
  unfold steam_discovery.manifestToApp
  rw [hid]
  simp only [hname]
  exact ⟨_, rfl⟩

/-- Claim C8 witness: the amended placeholder rule at the concrete
appmanifest_220.acf manifest with no name field. -/
theorem c8_missing_name_placeholder_witness :
    ∃ d, steam_discovery.manifestToApp "/h/.steam/steam/steamapps" "appmanifest_220.acf"
        (some ["\"installdir\" \"HL2\""]) =
      some { appid := 220, name := "Steam App " ++ toString (220 : Int), install_dir := d } :=
  c8_missing_name_placeholder "/h/.steam/steam/steamapps" "appmanifest_220.acf"
    (some ["\"installdir\" \"HL2\""]) 220 (by decide) (by decide)

/-- Claim C9, counterexample: a manifest whose name field is present but empty
produces a DiscoveredApp whose name is the empty string, violating the claimed
invariant that names are never empty. -/
theorem c9_counterexample :
    (steam_discovery.steam_apps_to_discovered
        (steam_discovery.find_installed_steam_apps sfsEmptyName)).map (fun a => a.name) =
      [""] := by
  decide

/-- Claim C9, amended: every DiscoveredApp has a non-empty path; a
filesystem-sourced app also has a non-empty name whenever the walked tree's
file names are non-empty, and a platform-sourced app's name can be empty only
when some scanned manifest explicitly maps name to the empty string (absent
names get the non-empty placeholder instead). -/
theorem c9_app_invariants :
    (∀ (fs : steam_discovery.SteamFS) (a : discovery.DiscoveredApp),
        a ∈ steam_discovery.steam_apps_to_discovered
          (steam_discovery.find_installed_steam_apps fs) →
        a.path ≠ [] ∧
          (a.name = "" →
            ∃ lib ∈ steam_discovery.find_steam_libraries fs,
              ∃ m ∈ fs.manifests lib,
                steam_discovery.globMatch m.1 = true ∧
                steam_discovery.parse_acf m.2 "name" = some "")) ∧
    (∀ (os : OSType) (fs : String → Option FSTree) (excl : List String)
        (r : hi.RootSpec) (t : FSTree) (a : types.DiscoveredApp),
        fs r.path = some t → t.namesNonempty = true →
        a ∈ hi.walkRootSpec os fs excl r →
        a.name ≠ "" ∧ a.path ≠ []) := by
  constructor
  · intro fs a ha
    unfold steam_discovery.steam_apps_to_discovered at ha
    rcases List.mem_map.mp ha with ⟨sa, hsa, rfl⟩
    constructor
    · simp
    · intro hname
      simp only at hname
      unfold steam_discovery.find_installed_steam_apps at hsa
      rcases List.mem_flatMap.mp hsa with ⟨lib, hlib, hsa2⟩
      rcases List.mem_filterMap.mp hsa2 with ⟨m, hm, heq⟩
      rcases List.mem_filter.mp hm with ⟨hm_mem, hm_glob⟩
      refine ⟨lib, hlib, m, hm_mem, hm_glob, ?_⟩
      unfold steam_discovery.manifestToApp at heq
      cases hid : pyInt ((pySplit '_' (pyStem m.1)).getD 1 "") with
      | none => rw [hid] at heq; cases heq
      | some appid =>
        rw [hid] at heq
        simp only [Option.some_inj] at heq
        have hn : sa.name = (steam_discovery.parse_acf m.2 "name").getD
            ("Steam App " ++ toString appid) := by
          rw [← heq]
        cases hacf : steam_discovery.parse_acf m.2 "name" with
        | none =>
          rw [hacf] at hn
          simp only [Option.getD_none] at hn
          exact absurd (hn.symm.trans hname) (steam_app_default_ne (toString appid))
        | some v =>
          rw [hacf] at hn
          simp only [Option.getD_some] at hn
          rw [hn] at hname
          rw [hname]
  · intro os fs excl r t a hfs hn ha
    obtain ⟨t2, hft2, e, he, hname, hpath⟩ := hi.walkRootSpec_shape os fs excl r a ha
    rw [hfs] at hft2
    cases hft2
    have hne := hi.walkAux_names excl (if r.recursive then r.max_depth else 1) t 0 hn e he
    constructor
    · rw [hname]
      exact pyStem_ne_empty e.2.name (fun hh => hne hh)
    · rw [hpath]
      simp

/-- Claim C9 witness: the amended invariant applied to a concrete
platform-sourced app and a concrete filesystem-sourced app. -/
theorem c9_app_invariants_witness :
    ((⟨"Steam App 220", ["steam://run/220"], discovery.Source.steam, 60⟩ :
          discovery.DiscoveredApp).path ≠ [] ∧
        ((⟨"Steam App 220", ["steam://run/220"], discovery.Source.steam, 60⟩ :
            discovery.DiscoveredApp).name = "" →
          ∃ lib ∈ steam_discovery.find_steam_libraries sfsNoName,
            ∃ m ∈ sfsNoName.manifests lib,
              steam_discovery.globMatch m.1 = true ∧
              steam_discovery.parse_acf m.2 "name" = some "")) ∧
      ((⟨"a", ["R", "a.exe"]⟩ : types.DiscoveredApp).name ≠ "" ∧
        (⟨"a", ["R", "a.exe"]⟩ : types.DiscoveredApp).path ≠ []) :=
  ⟨c9_app_invariants.1 sfsNoName
      ⟨"Steam App 220", ["steam://run/220"], discovery.Source.steam, 60⟩ (by decide),
    c9_app_invariants.2 OSType.WINDOWS fsDepth [] rootDepth2 treeDepth
      ⟨"a", ["R", "a.exe"]⟩ rfl (by decide) (by decide)⟩

/-- Claim C10: the value the parsed mapping assigns to a key is the value of
the last candidate line carrying that key (and no value at all when no
candidate line carries it), so later duplicate keys overwrite earlier ones. -/
theorem c10_last_duplicate_wins (lines : List String) (k : String) :
    steam_discovery.parse_acf_lines lines k =
      ((lines.filterMap acfLineSpec).reverse.find? (fun e => e.1 == k)).map
        (fun e => e.2) := by
  unfold steam_discovery.parse_acf_lines
  rw [foldl_acfLine_eq, applyEntries_findLast]
  cases (lines.filterMap acfLineSpec).reverse.find? (fun e => e.1 == k) <;> rfl
